import Mathlib

/-!
Verification development for the credit-risk analyst agent long-term
memory subsystem.  The definitions below are a shallow embedding of the
memory core found in `src/deploy/app.py` and `src/agent_with_memory.py`:

* the regex-driven fact extractor (`extract_customer_ids`,
  `extract_emails`, `extract_memories_from_response`) is embedded as
  executable scanners over `List Char` reproducing Python `re.findall`
  semantics (leftmost, non-overlapping, greedy with the limited
  backtracking these particular patterns can exercise);
* the durable PostgreSQL tables are embedded as lists of records, the
  `INSERT ... ON CONFLICT ... DO UPDATE` statements as a constraint-based
  upsert on those lists;
* the process-wide fallback cache (`MEMORY_CACHE`) is embedded as
  association lists mirroring the Python dicts.

Python `list(set(xs))` is modelled as first-occurrence deduplication;
no theorem below depends on the iteration order of a Python set.
`str.lower` is modelled on the ASCII range, which covers every pattern
literal the source uses.
-/

/-! ## Character and string utilities -/

/-- ASCII lower-casing of one character, as `str.lower` acts on the
ASCII range. -/
def toLowerChar (c : Char) : Char :=
  if 65 ≤ c.toNat ∧ c.toNat ≤ 90 then Char.ofNat (c.toNat + 32) else c

/-- Lower-case a character list. -/
def lowerL (cs : List Char) : List Char := cs.map toLowerChar

/-- Embedding of Python `text.lower()` (ASCII range). -/
def lowerStr (s : String) : String := String.mk (lowerL s.data)

/-- Does `cs` start with the literal `p` (case-sensitive)? -/
def leadsWith : List Char → List Char → Bool
  | [], _ => true
  | _ :: _, [] => false
  | p :: ps, c :: cs => (p == c) && leadsWith ps cs

/-- Does `cs` start with the lower-case literal `p`, comparing
case-insensitively (the effect of `re.IGNORECASE` on a literal)? -/
def leadsWithCI : List Char → List Char → Bool
  | [], _ => true
  | _ :: _, [] => false
  | p :: ps, c :: cs => (p == toLowerChar c) && leadsWithCI ps cs

/-- Embedding of Python substring containment `needle in hay`. -/
def containsSub (needle : List Char) : List Char → Bool
  | [] => needle.isEmpty
  | c :: cs => leadsWith needle (c :: cs) || containsSub needle cs

/-- Python `list(set(xs))`, modelled as keeping the first occurrence of
each element. -/
def dedupFirst (l : List String) : List String :=
  l.foldl (fun acc x => if x ∈ acc then acc else acc ++ [x]) []

/-- Python regex class `\d`. -/
def isDigitC (c : Char) : Bool := decide (48 ≤ c.toNat ∧ c.toNat ≤ 57)

/-- Python regex class `\s` (ASCII range). -/
def isSpaceC (c : Char) : Bool :=
  c == ' ' || c == Char.ofNat 9 || c == Char.ofNat 10 ||
  c == Char.ofNat 13 || c == Char.ofNat 11 || c == Char.ofNat 12

/-- Letters, i.e. `[A-Za-z]`; also `[A-Z]`/`[a-z]` under `re.IGNORECASE`. -/
def isAlphaC (c : Char) : Bool :=
  decide (97 ≤ c.toNat ∧ c.toNat ≤ 122) || decide (65 ≤ c.toNat ∧ c.toNat ≤ 90)

/-- The class `[a-zA-Z0-9._%+-]` of the local part of the email pattern. -/
def isLocalC (c : Char) : Bool :=
  isAlphaC c || isDigitC c || c == '.' || c == '_' || c == '%' || c == '+' || c == '-'

/-- The class `[a-zA-Z0-9.-]` of the domain part of the email pattern. -/
def isDomC (c : Char) : Bool :=
  isAlphaC c || isDigitC c || c == '.' || c == '-'

/-- The class `[:\s]` used as key/value separator in several patterns. -/
def isColonSpaceC (c : Char) : Bool := c == ':' || isSpaceC c

/-! ## Customer-id extraction
Pattern from `extract_customer_ids` in `src/deploy/app.py`:
`customer\s*(?:id)?[:\s]*(\d{4,})`, applied to the lower-cased text. -/

/-- The literal `customer`. -/
def litCustomer : List Char := ['c', 'u', 's', 't', 'o', 'm', 'e', 'r']

/-- Greedy `(\d{4,})`: a maximal digit run of length at least 4, with
the remainder of the input. -/
def matchDigitsRun (cs : List Char) : Option (List Char × List Char) :=
  let ds := cs.takeWhile isDigitC
  if 4 ≤ ds.length then some (ds, cs.drop ds.length) else none

/-- Matches `\s*(?:id)?[:\s]*(\d{4,})` (what follows the literal
`customer`).  If the optional `id` is present the engine commits to it:
giving characters back from `\s*` or `[:\s]*` can never start a digit,
so the only live alternative after consuming `id` fails on the letter
`i` as well. -/
def matchCidTail (cs : List Char) : Option (List Char × List Char) :=
  let cs1 := cs.dropWhile isSpaceC
  if leadsWith ['i', 'd'] cs1 then
    matchDigitsRun ((cs1.drop 2).dropWhile isColonSpaceC)
  else
    matchDigitsRun (cs1.dropWhile isColonSpaceC)

/-- `re.findall` scan for the customer-id pattern: leftmost matches,
resuming after each match.  `fuel` bounds recursion; it is instantiated
with the text length, which the scan can never exhaust. -/
def scanCids : Nat → List Char → List String
  | 0, _ => []
  | _ + 1, [] => []
  | fuel + 1, c :: cs =>
    if leadsWith litCustomer (c :: cs) then
      match matchCidTail ((c :: cs).drop 8) with
      | some (ds, rest) => String.mk ds :: scanCids fuel rest
      | none => scanCids fuel cs
    else scanCids fuel cs

/-- Embedding of `extract_customer_ids` (`src/deploy/app.py`). -/
def extract_customer_ids (text : String) : List String :=
  dedupFirst (scanCids text.data.length (lowerL text.data))

/-! ## Email extraction
Pattern from `extract_emails` in `src/deploy/app.py`:
`[a-zA-Z0-9._%+-]+@[a-zA-Z0-9.-]+\.[a-zA-Z]{2,}` on the raw text. -/

/-- Backtracking search for the split of the maximal domain-class run
`dom` demanded by `[a-zA-Z0-9.-]+\.[a-zA-Z]{2,}`: the greedy `+` tries
the longest head first, so we look for the largest `a` such that
`dom[a] = '.'` and at least two letters follow, and consume the maximal
letter run after the dot.  Returns the number of characters of `dom`
the regex consumes. -/
def tryDomSplit (dom : List Char) : Nat → Option Nat
  | 0 => none
  | k + 1 =>
    match dom.drop (k + 1) with
    | '.' :: tail =>
      let m := (tail.takeWhile isAlphaC).length
      if 2 ≤ m then some (k + 1 + 1 + m) else tryDomSplit dom k
    | _ => tryDomSplit dom k

/-- Attempt the email pattern at the current position.  The local part
is a maximal run of local-class characters (shorter prefixes are always
followed by a local-class character, never `@`, so greedy matching
without backtracking is faithful). -/
def matchEmailAt (cs : List Char) : Option (List Char × List Char) :=
  let loc := cs.takeWhile isLocalC
  if loc.isEmpty then none
  else
    match cs.drop loc.length with
    | '@' :: rest =>
      let dom := rest.takeWhile isDomC
      match tryDomSplit dom (dom.length - 1) with
      | some n => some (loc ++ '@' :: dom.take n, rest.drop n)
      | none => none
    | _ => none

/-- `re.findall` scan for the email pattern. -/
def scanEmails : Nat → List Char → List String
  | 0, _ => []
  | _ + 1, [] => []
  | fuel + 1, c :: cs =>
    match matchEmailAt (c :: cs) with
    | some (em, rest) => String.mk em :: scanEmails fuel rest
    | none => scanEmails fuel cs

/-- Embedding of `extract_emails` (`src/deploy/app.py`). -/
def extract_emails (text : String) : List String :=
  dedupFirst (scanEmails text.data.length text.data)

/-! ## Name extraction
Patterns from `extract_memories_from_response` (`src/deploy/app.py`),
all compiled with `re.IGNORECASE`:
* `(?:name|customer\s*name)[:\s]+([A-Z][a-z]+(?:\s+[A-Z][a-z]+)+)`
* `(?:first\s*name)[:\s]+([A-Z][a-z]+)`
* `(?:last\s*name)[:\s]+([A-Z][a-z]+)`
Under `IGNORECASE` the classes `[A-Z]` and `[a-z]` both mean "letter". -/

/-- The literal `name`. -/
def litName : List Char := ['n', 'a', 'm', 'e']

/-- The literal `first`. -/
def litFirstWord : List Char := ['f', 'i', 'r', 's', 't']

/-- The literal `last`. -/
def litLastWord : List Char := ['l', 'a', 's', 't']

/-- One "word" `[A-Z][a-z]+` under `IGNORECASE`: a letter followed by a
maximal nonempty letter run. -/
def matchWord (cs : List Char) : Option (List Char × List Char) :=
  match cs with
  | [] => none
  | c :: rest =>
    if isAlphaC c then
      let ls := rest.takeWhile isAlphaC
      if ls.isEmpty then none else some (c :: ls, rest.drop ls.length)
    else none

/-- Greedy `(?:\s+[A-Z][a-z]+)*` tail: as many (spaces, word) groups as
possible; returns the consumed characters and the remainder.  An empty
first component means zero groups matched. -/
def matchMoreWords : Nat → List Char → List Char × List Char
  | 0, cs => ([], cs)
  | fuel + 1, cs =>
    let sp := cs.takeWhile isSpaceC
    if sp.isEmpty then ([], cs)
    else
      match matchWord (cs.drop sp.length) with
      | some (w, rest) =>
        let pr := matchMoreWords fuel rest
        (sp ++ w ++ pr.fst, pr.snd)
      | none => ([], cs)

/-- Alternation `(?:name|customer\s*name)`: the first alternative is
tried first; the two alternatives can never match at the same starting
character, so no cross-alternative backtracking arises.  Returns the
remainder after the matched literal. -/
def matchNameLit (cs : List Char) : Option (List Char) :=
  if leadsWithCI litName cs then some (cs.drop 4)
  else if leadsWithCI litCustomer cs then
    let cs1 := (cs.drop 8).dropWhile isSpaceC
    if leadsWithCI litName cs1 then some (cs1.drop 4) else none
  else none

/-- Full-name pattern at the current position; yields the capture group
(two or more words) and the remainder after the match. -/
def matchNameP1 (cs : List Char) : Option (List Char × List Char) :=
  match matchNameLit cs with
  | none => none
  | some cs1 =>
    let sep := cs1.takeWhile isColonSpaceC
    if sep.isEmpty then none
    else
      match matchWord (cs1.drop sep.length) with
      | none => none
      | some (w1, r1) =>
        let pr := matchMoreWords r1.length r1
        if pr.fst.isEmpty then none else some (w1 ++ pr.fst, pr.snd)

/-- Literal `(?:first\s*name)` resp. `(?:last\s*name)`. -/
def matchFLNameLit (lit : List Char) (cs : List Char) : Option (List Char) :=
  if leadsWithCI lit cs then
    let cs1 := (cs.drop lit.length).dropWhile isSpaceC
    if leadsWithCI litName cs1 then some (cs1.drop 4) else none
  else none

/-- First-name or last-name pattern at the current position; the
capture group is a single word. -/
def matchNameP23 (lit : List Char) (cs : List Char) : Option (List Char × List Char) :=
  match matchFLNameLit lit cs with
  | none => none
  | some cs1 =>
    let sep := cs1.takeWhile isColonSpaceC
    if sep.isEmpty then none else matchWord (cs1.drop sep.length)

/-! ## Financial-attribute extraction
Patterns from `extract_memories_from_response`, with `re.IGNORECASE`:
* `(?:income|annual\s*income)[:\s]*\$?([\d,]+(?:\.\d{2})?)` → income
* `(?:credit\s*score|fico)[:\s]*(\d{3})` → credit_score
* `(?:balance|account\s*balance)[:\s]*\$?([\d,]+(?:\.\d{2})?)` → balance
* `(?:total\s*assets)[:\s]*\$?([\d,]+(?:\.\d{2})?)` → total_assets
* `(?:age)[:\s]*(\d{1,3})(?:\s*years)?` → age -/

/-- The literal `income`. -/
def litIncome : List Char := ['i', 'n', 'c', 'o', 'm', 'e']

/-- The literal `annual`. -/
def litAnnual : List Char := ['a', 'n', 'n', 'u', 'a', 'l']

/-- The literal `credit`. -/
def litCredit : List Char := ['c', 'r', 'e', 'd', 'i', 't']

/-- The literal `score`. -/
def litScore : List Char := ['s', 'c', 'o', 'r', 'e']

/-- The literal `fico`. -/
def litFico : List Char := ['f', 'i', 'c', 'o']

/-- The literal `balance`. -/
def litBalance : List Char := ['b', 'a', 'l', 'a', 'n', 'c', 'e']

/-- The literal `account`. -/
def litAccount : List Char := ['a', 'c', 'c', 'o', 'u', 'n', 't']

/-- The literal `total`. -/
def litTotal : List Char := ['t', 'o', 't', 'a', 'l']

/-- The literal `assets`. -/
def litAssets : List Char := ['a', 's', 's', 'e', 't', 's']

/-- The literal `age`. -/
def litAge : List Char := ['a', 'g', 'e']

/-- The literal `years`. -/
def litYears : List Char := ['y', 'e', 'a', 'r', 's']

/-- `[:\s]*\$?([\d,]+(?:\.\d{2})?)`: separator run, optional dollar
sign, then the money capture group.  `\d{2}` wants exactly two digits
after the decimal point, otherwise the optional group matches empty. -/
def matchMoneyAt (cs : List Char) : Option (List Char × List Char) :=
  let cs1 := cs.dropWhile isColonSpaceC
  let cs2 := match cs1 with
    | '$' :: r => r
    | _ => cs1
  let ds := cs2.takeWhile (fun c => isDigitC c || c == ',')
  if ds.isEmpty then none
  else
    match cs2.drop ds.length with
    | '.' :: d1 :: d2 :: r2 =>
      if isDigitC d1 && isDigitC d2 then some (ds ++ ['.', d1, d2], r2)
      else some (ds, cs2.drop ds.length)
    | rest => some (ds, rest)

/-- `[:\s]*(\d{3})`: separator run then exactly three digits. -/
def matchD3 (cs : List Char) : Option (List Char × List Char) :=
  match cs.dropWhile isColonSpaceC with
  | d1 :: d2 :: d3 :: r =>
    if isDigitC d1 && isDigitC d2 && isDigitC d3 then some ([d1, d2, d3], r)
    else none
  | _ => none

/-- Income pattern at the current position. -/
def matchIncomeAt (cs : List Char) : Option (List Char × List Char) :=
  if leadsWithCI litIncome cs then matchMoneyAt (cs.drop 6)
  else if leadsWithCI litAnnual cs then
    let cs1 := (cs.drop 6).dropWhile isSpaceC
    if leadsWithCI litIncome cs1 then matchMoneyAt (cs1.drop 6) else none
  else none

/-- Credit-score pattern at the current position. -/
def matchCreditScoreAt (cs : List Char) : Option (List Char × List Char) :=
  if leadsWithCI litCredit cs then
    let cs1 := (cs.drop 6).dropWhile isSpaceC
    if leadsWithCI litScore cs1 then matchD3 (cs1.drop 5) else none
  else if leadsWithCI litFico cs then matchD3 (cs.drop 4)
  else none

/-- Balance pattern at the current position. -/
def matchBalanceAt (cs : List Char) : Option (List Char × List Char) :=
  if leadsWithCI litBalance cs then matchMoneyAt (cs.drop 7)
  else if leadsWithCI litAccount cs then
    let cs1 := (cs.drop 7).dropWhile isSpaceC
    if leadsWithCI litBalance cs1 then matchMoneyAt (cs1.drop 7) else none
  else none

/-- Total-assets pattern at the current position. -/
def matchAssetsAt (cs : List Char) : Option (List Char × List Char) :=
  if leadsWithCI litTotal cs then
    let cs1 := (cs.drop 5).dropWhile isSpaceC
    if leadsWithCI litAssets cs1 then matchMoneyAt (cs1.drop 6) else none
  else none

/-- Age pattern at the current position.  `\d{1,3}` greedily takes up
to three digits; the trailing `(?:\s*years)?` is consumed but not
captured. -/
def matchAgeAt (cs : List Char) : Option (List Char × List Char) :=
  if leadsWithCI litAge cs then
    let cs1 := (cs.drop 3).dropWhile isColonSpaceC
    let ds := (cs1.takeWhile isDigitC).take 3
    if ds.isEmpty then none
    else
      let rest := cs1.drop ds.length
      let sp := rest.takeWhile isSpaceC
      if leadsWithCI litYears (rest.drop sp.length) then
        some (ds, (rest.drop sp.length).drop 5)
      else some (ds, rest)
  else none

/-- Generic `re.findall` scan: try the matcher at each position,
leftmost first, resuming after each match.  Every matcher used below
consumes at least one character on success, and `fuel` is instantiated
with the text length. -/
def scanAll (m : List Char → Option (List Char × List Char)) :
    Nat → List Char → List String
  | 0, _ => []
  | _ + 1, [] => []
  | fuel + 1, c :: cs =>
    match m (c :: cs) with
    | some (g, rest) => String.mk g :: scanAll m fuel rest
    | none => scanAll m fuel cs

/-- `re.findall pattern text` for one of the matchers above. -/
def findallOn (m : List Char → Option (List Char × List Char)) (text : String) :
    List String :=
  scanAll m text.data.length text.data

/-! ## The stores issued by the fact extractor -/

/-- One call of `store_user_memory` issued by the extractor: the row
content of the upsert. -/
structure MemWrite where
  user_id : String
  memory_type : String
  memory_key : String
  memory_value : String
deriving DecidableEq, Repr

/-- Condition `"high risk" in low or "high credit risk" in low` from the
risk-level branch of `extract_memories_from_response`. -/
def hiRiskB (low : List Char) : Bool :=
  containsSub "high risk".data low || containsSub "high credit risk".data low

/-- Condition of the `low risk` branch. -/
def loRiskB (low : List Char) : Bool :=
  containsSub "low risk".data low || containsSub "low credit risk".data low

/-- Condition of the `medium risk` branch. -/
def medRiskB (low : List Char) : Bool :=
  containsSub "medium risk".data low || containsSub "moderate risk".data low

/-- The `if/elif/elif` chain selecting the risk label in
`extract_memories_from_response`, applied to the lower-cased text. -/
def riskLabel (low : String) : Option String :=
  if hiRiskB low.data then some "HIGH_RISK"
  else if loRiskB low.data then some "LOW_RISK"
  else if medRiskB low.data then some "MEDIUM_RISK"
  else none

/-- The name matchers, in the order of the `name_patterns` list. -/
def nameMatchers : List (List Char → Option (List Char × List Char)) :=
  [matchNameP1, matchNameP23 litFirstWord, matchNameP23 litLastWord]

/-- Stores issued by the name-pattern loop: for each pattern, if it
matched and customer ids are present, the first match is stored once
per customer id. -/
def namesWrites (text user : String) (cids : List String) : List MemWrite :=
  nameMatchers.flatMap fun m =>
    let found := findallOn m text
    if found ≠ [] ∧ cids ≠ [] then
      (found.take 1).flatMap fun nm =>
        cids.map fun cid =>
          MemWrite.mk user "customer_names" ("customer_" ++ cid) nm
    else []

/-- The `financial_patterns` list: matcher together with its
`data_type` string. -/
def financialSpecs : List ((List Char → Option (List Char × List Char)) × String) :=
  [(matchIncomeAt, "income"), (matchCreditScoreAt, "credit_score"),
   (matchBalanceAt, "balance"), (matchAssetsAt, "total_assets"),
   (matchAgeAt, "age")]

/-- Stores issued by the financial-pattern loop. -/
def financialWrites (text user : String) (cids : List String) : List MemWrite :=
  financialSpecs.flatMap fun spec =>
    let found := findallOn spec.fst text
    if found ≠ [] ∧ cids ≠ [] then
      (found.take 1).flatMap fun v =>
        cids.map fun cid =>
          MemWrite.mk user ("customer_" ++ spec.snd) ("customer_" ++ cid) v
    else []

/-- Embedding of `extract_memories_from_response`
(`src/deploy/app.py`): the ordered list of `store_user_memory` calls it
issues.  `dateStr` stands for `datetime.now().strftime('%Y-%m-%d')`. -/
def extract_memories_from_response (response_text user_id dateStr : String) :
    List MemWrite :=
  let customer_ids := extract_customer_ids response_text
  let analyzed := customer_ids.map fun cid =>
    MemWrite.mk user_id "analyzed_customers" ("customer_" ++ cid)
      ("Analyzed on " ++ dateStr)
  let risks := match riskLabel (lowerStr response_text) with
    | some lab => customer_ids.map fun cid =>
        MemWrite.mk user_id "risk_assessments" ("customer_" ++ cid) lab
    | none => []
  let emails := extract_emails response_text
  let emailWrites :=
    if emails ≠ [] ∧ customer_ids ≠ [] then
      emails.flatMap fun em => customer_ids.map fun cid =>
        MemWrite.mk user_id "customer_emails" ("customer_" ++ cid) em
    else if emails ≠ [] then
      emails.map fun em =>
        MemWrite.mk user_id "discovered_emails" em ("Found on " ++ dateStr)
    else []
  analyzed ++ risks ++ emailWrites ++
    namesWrites response_text user_id customer_ids ++
    financialWrites response_text user_id customer_ids

/-! ## Durable store: constraint-based upsert

`app_user_memories` (`src/deploy/app.py`) and `agent_long_term_memory`
(`src/agent_with_memory.py`) both carry
`UNIQUE(user_id, memory_type, memory_key)` and are written with the same
`INSERT ... ON CONFLICT (user_id, memory_type, memory_key) DO UPDATE SET
memory_value = EXCLUDED.memory_value, updated_at = CURRENT_TIMESTAMP`.
`app_conversation_summaries` / `agent_conversation_summaries` carry a
unique `thread_id` and an analogous `ON CONFLICT (thread_id) DO UPDATE`.
Both statements are instances of the same upsert shape, embedded here as
`upsertBy`: if some row satisfies the conflict predicate it is updated
in place, otherwise the fresh row is appended. -/

/-- `INSERT ... ON CONFLICT ... DO UPDATE`: update the conflicting
row(s) with `upd`, or append `new` when no row conflicts. -/
def upsertBy {α : Type} (p : α → Bool) (upd : α → α) (new : α) (l : List α) :
    List α :=
  if l.any p then l.map fun r => if p r then upd r else r
  else l ++ [new]

/-- A row of the long-term memory table (`updated_at` as an abstract
timestamp). -/
structure MemRecord where
  user_id : String
  memory_type : String
  memory_key : String
  memory_value : String
  updated_at : Nat
deriving DecidableEq, Repr

/-- The unique-constraint key of the long-term memory table. -/
def tripleOf (r : MemRecord) : String × String × String :=
  (r.user_id, r.memory_type, r.memory_key)

/-- Embedding of the durable part of `store_user_memory`
(`src/deploy/app.py`) and of `LakebaseMemoryManager.store_memory`
(`src/agent_with_memory.py`): the `ON CONFLICT` upsert against the
memory table.  `now` stands for `CURRENT_TIMESTAMP`. -/
def store_memory (tbl : List MemRecord) (u t k v : String) (now : Nat) :
    List MemRecord :=
  upsertBy (fun r => decide (tripleOf r = (u, t, k)))
    (fun r => { r with memory_value := v, updated_at := now })
    (MemRecord.mk u t k v now) tbl

/-- One store operation of a sequence. -/
structure StoreOp where
  user_id : String
  memory_type : String
  memory_key : String
  memory_value : String
  now : Nat
deriving Repr

/-- Run a sequence of `store_memory` operations. -/
def applyStores (tbl : List MemRecord) (ops : List StoreOp) : List MemRecord :=
  ops.foldl
    (fun tb op => store_memory tb op.user_id op.memory_type op.memory_key
      op.memory_value op.now) tbl

/-- The table invariant enforced by
`UNIQUE(user_id, memory_type, memory_key)`. -/
def UniqueTriples (tbl : List MemRecord) : Prop :=
  tbl.Pairwise fun a b => tripleOf a ≠ tripleOf b

/-- A row of the conversation-summaries table.  `customer_ids` is the
comma-joined string column. -/
structure SumRow where
  user_id : String
  thread_id : String
  summary : String
  customer_ids : String
deriving DecidableEq, Repr

/-- The table invariant enforced by the unique `thread_id` column. -/
def UniqueThreads (tbl : List SumRow) : Prop :=
  tbl.Pairwise fun a b => a.thread_id ≠ b.thread_id

/-- Embedding of the durable part of `store_conversation_summary`
(`src/deploy/app.py`): `ON CONFLICT (thread_id) DO UPDATE SET summary,
customer_ids` — note the conflict update rewrites only those two
columns, `user_id` keeps its stored value. -/
def store_conversation_summary_db (tbl : List SumRow)
    (u th s cidsStr : String) : List SumRow :=
  upsertBy (fun r => decide (r.thread_id = th))
    (fun r => { r with summary := s, customer_ids := cidsStr })
    (SumRow.mk u th s cidsStr) tbl

/-! ## The in-process fallback cache

`MEMORY_CACHE` in `src/deploy/app.py` is a dict of dicts; dicts are
modelled as association lists in insertion order (`setA` updates an
existing key in place, Python dict assignment semantics). -/

/-- Python dict lookup. -/
def lookupA {α : Type} : List (String × α) → String → Option α
  | [], _ => none
  | (k2, v) :: rest, k => if k2 = k then some v else lookupA rest k

/-- Python dict assignment `d[k] = v`. -/
def setA {α : Type} : List (String × α) → String → α → List (String × α)
  | [], k, v => [(k, v)]
  | (k2, v2) :: rest, k, v =>
    if k2 = k then (k, v) :: rest else (k2, v2) :: setA rest k v

/-- Python `dict.pop(k, None)`. -/
def removeA {α : Type} (d : List (String × α)) (k : String) :
    List (String × α) :=
  d.filter fun p => decide (p.fst ≠ k)

/-- A cached memory item (`MEMORY_CACHE["user_memories"]` entries carry
exactly these three fields). -/
structure CacheMem where
  memory_type : String
  memory_key : String
  memory_value : String
deriving DecidableEq, Repr

/-- The update-or-append loop in the cache branch of `store_user_memory`:
the first entry with matching type and key has its value replaced,
otherwise the new entry is appended. -/
def updateMemList : List CacheMem → String → String → String → List CacheMem
  | [], t, k, v => [CacheMem.mk t k v]
  | m :: rest, t, k, v =>
    if m.memory_type = t ∧ m.memory_key = k then CacheMem.mk t k v :: rest
    else m :: updateMemList rest t k v

/-- Cache branch of `store_user_memory` (`src/deploy/app.py`). -/
def store_user_memory_cache (d : List (String × List CacheMem))
    (u t k v : String) : List (String × List CacheMem) :=
  setA d u (updateMemList ((lookupA d u).getD []) t k v)

/-- `get_user_memories` (`src/deploy/app.py`) with the durable store
unreachable (`conn is None`): the database query is skipped, so the
result is the cache fallback `MEMORY_CACHE["user_memories"][u][:limit]`
(empty when the user is absent). -/
def get_user_memories_cache (d : List (String × List CacheMem))
    (u : String) (limit : Nat) : List CacheMem :=
  match lookupA d u with
  | some lst => lst.take limit
  | none => []

/-- A cached conversation summary (`MEMORY_CACHE["summaries"]` entries). -/
structure CacheSum where
  thread_id : String
  summary : String
  customer_ids : List String
deriving DecidableEq, Repr

/-- Cache branch of `store_conversation_summary`
(`src/deploy/app.py`): unconditionally appends to the list of the user. -/
def store_conversation_summary_cache (d : List (String × List CacheSum))
    (u th s : String) (cids : List String) : List (String × List CacheSum) :=
  setA d u (((lookupA d u).getD []) ++ [CacheSum.mk th s cids])

/-- Embedding of `store_conversation_summary` (`src/deploy/app.py`):
durable upsert (with `customer_ids` comma-joined, empty when the list
is empty) followed by the cache append. -/
def store_conversation_summary (db : List SumRow)
    (cache : List (String × List CacheSum)) (u th s : String)
    (cids : List String) : List SumRow × List (String × List CacheSum) :=
  (store_conversation_summary_db db u th s (String.intercalate "," cids),
   store_conversation_summary_cache cache u th s cids)

/-! ## Clearing the memories of a user -/

/-- A row of `app_conversation_history`. -/
structure HistRow where
  thread_id : String
  user_id : String
  role : String
  content : String
deriving DecidableEq, Repr

/-- The durable tables touched or skipped by the clear endpoint. -/
structure DbState where
  history : List HistRow
  memories : List MemRecord
  summaries : List SumRow
deriving Repr

/-- The fallback cache (`MEMORY_CACHE`): conversations by thread,
user memories and summaries by user. -/
structure CacheState where
  conversations : List (String × List (String × String))
  user_memories : List (String × List CacheMem)
  summaries : List (String × List CacheSum)
deriving Repr

/-- Embedding of `clear_memories_api` (`src/deploy/app.py`): `DELETE
FROM app_user_memories WHERE user_id = u`, `DELETE FROM
app_conversation_summaries WHERE user_id = u`, no statement against
`app_conversation_history`, then `MEMORY_CACHE["user_memories"].pop(u)`
and `MEMORY_CACHE["summaries"].pop(u)`. -/
def clear_memories_api (db : DbState) (cache : CacheState) (u : String) :
    DbState × CacheState :=
  ({ history := db.history,
     memories := db.memories.filter fun r => decide (r.user_id ≠ u),
     summaries := db.summaries.filter fun r => decide (r.user_id ≠ u) },
   { conversations := cache.conversations,
     user_memories := removeA cache.user_memories u,
     summaries := removeA cache.summaries u })

/-! ## Context composers -/

/-- Strip with Python `str.replace("customer_", "")`, which removes
every non-overlapping occurrence left to right. -/
def removeOcc (pat : List Char) : Nat → List Char → List Char
  | 0, cs => cs
  | _ + 1, [] => []
  | fuel + 1, c :: cs =>
    if leadsWith pat (c :: cs) then removeOcc pat fuel ((c :: cs).drop pat.length)
    else c :: removeOcc pat fuel cs

/-- `memory_key.replace("customer_", "")` from `build_memory_context`. -/
def stripCustomerKey (k : String) : String :=
  String.mk (removeOcc "customer_".data k.data.length k.data)

/-- The grouping loop of `build_memory_context`: a dict from embedded
customer id to a dict of `memory_type → memory_value`, in insertion
order; later entries for the same `(cid, type)` overwrite. -/
def groupCustomerData (ms : List CacheMem) :
    List (String × List (String × String)) :=
  ms.foldl
    (fun acc m =>
      if leadsWith "customer_".data m.memory_key.data then
        let cid := stripCustomerKey m.memory_key
        setA acc cid (setA ((lookupA acc cid).getD []) m.memory_type m.memory_value)
      else acc) []

/-- Embedding of `build_memory_context` (`src/deploy/app.py`), as a
function of the memory list it fetches via
`get_user_memories(conn, user_id, limit=50)`. -/
def build_memory_context (memories : List CacheMem) : String :=
  if memories.isEmpty then ""
  else
    let customer_data := groupCustomerData memories
    if customer_data.isEmpty then ""
    else
      let context_lines := (customer_data.take 5).foldl
        (fun acc cd =>
          let acc1 := match lookupA cd.snd "customer_emails" with
            | some e => acc ++ ["customer_" ++ cd.fst ++ "_email=" ++ e]
            | none => acc
          match lookupA cd.snd "risk_assessments" with
          | some r => acc1 ++ ["customer_" ++ cd.fst ++ "_risk=" ++ r]
          | none => acc1) []
      if context_lines.isEmpty then ""
      else String.intercalate "|" context_lines

/-- A conversation summary as returned by
`get_recent_conversations` (`src/agent_with_memory.py`); the fields the
formatter reads. -/
structure ConvoEntry where
  thread_id : String
  summary : String
  customer_ids : List String
deriving Repr

/-- Embedding of `CreditRiskAgentWithMemory._format_memory_context`
(`src/agent_with_memory.py`), as a function of the memory list and the
recent-conversation list it fetches. -/
def format_memory_context (memories : List CacheMem)
    (convos : List ConvoEntry) : String :=
  if memories.isEmpty then ""
  else
    let base := ["### Previous Knowledge About This User:"] ++
      (memories.take 10).map fun m =>
        "- " ++ m.memory_type ++ ": " ++ m.memory_key ++ " = " ++ m.memory_value
    let parts :=
      if convos.isEmpty then base
      else base ++ ["\n### Recent Conversation Summaries:"] ++
        convos.flatMap fun c =>
          ["- " ++ c.summary] ++
          (if c.customer_ids.isEmpty then []
           else ["  (Discussed customers: " ++
             String.intercalate ", " c.customer_ids ++ ")"])
    String.intercalate "\n" parts

/-! ## Tool dispatch and the predict tail -/

/-- Embedding of `CreditRiskAgentWithMemory.execute_tool`
(`src/agent_with_memory.py`): `self._tools_dict` as an association
list of executable functions (results rendered as strings). -/
def execute_tool (tools : List (String × (String → String)))
    (tool_name : String) (args : String) : String :=
  match lookupA tools tool_name with
  | some f => f args
  | none => "Unknown tool: " ++ tool_name

/-- The user-visible reply of `CreditRiskAgentWithMemory.predict`:
output items plus the `custom_outputs` bookkeeping. -/
structure PredictResponse where
  output : List String
  thread_id : String
  user_id : String
  memory_enabled : Bool
deriving DecidableEq, Repr

/-- Embedding of the tail of `CreditRiskAgentWithMemory.predict`
(`src/agent_with_memory.py`) after the model reply `outputs` has been
produced (steps 1-5; the remote model is an opaque collaborator):
step 6 runs `_extract_and_store_memories` — an arbitrary state
transformer `extractStep` that may also raise — inside
`try/except Exception`, keeping the old state on failure, and then the
response is assembled from `outputs` and the ids alone. -/
def predict_finish (outputs : List String) (user_id thread_id : String)
    (st : List MemRecord × List SumRow)
    (extractStep : List MemRecord × List SumRow →
      Except String (List MemRecord × List SumRow)) :
    PredictResponse × (List MemRecord × List SumRow) :=
  let st2 := match extractStep st with
    | Except.ok s => s
    | Except.error _ => st
  (PredictResponse.mk outputs thread_id user_id true, st2)

/-! ## Upsert lemmas -/

/-- What the constraint-based upsert leaves for the conflict predicate,
given that at most one stored row satisfied it: the updated conflicting
row, or the fresh row. -/
theorem upsertBy_filter {α : Type} (p : α → Bool) (upd : α → α) (new : α)
    (l : List α)
    (hupd : ∀ r, p r = true → p (upd r) = true) (hnew : p new = true)
    (huniq : l.Pairwise fun a b => p a = true → p b = true → False) :
    (upsertBy p upd new l).filter p =
      match l.find? p with
      | some r => [upd r]
      | none => [new] := by
  induction l with
  | nil => simp [upsertBy, hnew]
  | cons a l ih =>
    have htail := (List.pairwise_cons.mp huniq).2
    cases hpa : p a with
    | true =>
      have hl : ∀ b ∈ l, p b = false := by
        intro b hb
        by_contra h
        rw [Bool.not_eq_false] at h
        exact (List.pairwise_cons.mp huniq).1 b hb hpa h
      have hany : (a :: l).any p = true := by simp [hpa]
      have hmapl : l.map (fun r => if p r then upd r else r) = l := by
        conv_rhs => rw [← List.map_id l]
        apply List.map_congr_left
        intro b hb
        simp [hl b hb]
      have hfl : l.filter p = [] := by
        rw [List.filter_eq_nil_iff]
        intro b hb
        simp [hl b hb]
      simp only [upsertBy, hany, if_true, List.map_cons, hpa, hmapl,
        List.filter_cons, hupd a hpa, List.find?_cons_of_pos _ hpa]
      rw [hfl]
    | false =>
      have hfind : (a :: l).find? p = l.find? p :=
        List.find?_cons_of_neg _ (by simp [hpa])
      cases hany : l.any p with
      | true =>
        have hanyc : (a :: l).any p = true := by simp [hany]
        have ihh := ih htail
        rw [upsertBy, if_pos hany] at ihh
        have hga : (if p a = true then upd a else a) = a := by simp [hpa]
        rw [upsertBy, if_pos hanyc, hfind, List.map_cons, hga,
          List.filter_cons, if_neg (by simp [hpa])]
        exact ihh
      | false =>
        have hanyc : (a :: l).any p = false := by simp [hany, hpa]
        have ihh := ih htail
        rw [upsertBy, if_neg (by simp [hany])] at ihh
        rw [upsertBy, if_neg (by simp [hanyc]), hfind, List.cons_append,
          List.filter_cons, if_neg (by simp [hpa])]
        exact ihh

/-- Key-based form of `upsertBy_filter` for the `ON CONFLICT (key)`
statements. -/
theorem upsertBy_filter_key {α κ : Type} [DecidableEq κ] (kf : α → κ)
    (key : κ) (upd : α → α) (new : α) (l : List α)
    (hu : ∀ r, kf (upd r) = kf r) (hn : kf new = key)
    (huniq : l.Pairwise fun a b => kf a ≠ kf b) :
    (upsertBy (fun r => decide (kf r = key)) upd new l).filter
        (fun r => decide (kf r = key)) =
      match l.find? (fun r => decide (kf r = key)) with
      | some r => [upd r]
      | none => [new] := by
  apply upsertBy_filter
  · intro r h
    simp only [decide_eq_true_eq] at h ⊢
    rw [hu]
    exact h
  · simp [hn]
  · refine huniq.imp ?_
    intro a b hab hpa hpb
    simp only [decide_eq_true_eq] at hpa hpb
    exact hab (hpa.trans hpb.symm)

/-- The upsert preserves the unique-key invariant. -/
theorem upsertBy_pairwise_key {α κ : Type} [DecidableEq κ] (kf : α → κ)
    (key : κ) (upd : α → α) (new : α) (l : List α)
    (hu : ∀ r, kf (upd r) = kf r) (hn : kf new = key)
    (huniq : l.Pairwise fun a b => kf a ≠ kf b) :
    (upsertBy (fun r => decide (kf r = key)) upd new l).Pairwise
      fun a b => kf a ≠ kf b := by
  unfold upsertBy
  by_cases hany : l.any (fun r => decide (kf r = key)) = true
  · simp only [hany, if_pos]
    refine List.Pairwise.map _ ?_ huniq
    intro a b hab
    have hga : kf (if decide (kf a = key) = true then upd a else a) = kf a := by
      split <;> simp [hu]
    have hgb : kf (if decide (kf b = key) = true then upd b else b) = kf b := by
      split <;> simp [hu]
    rw [hga, hgb]
    exact hab
  · simp only [hany, if_neg, Bool.false_eq_true, not_false_iff]
    rw [List.pairwise_append]
    refine ⟨huniq, List.pairwise_singleton _ _, ?_⟩
    intro a hal b hb
    simp only [List.mem_singleton] at hb
    subst hb
    rw [hn]
    rw [List.any_eq_true] at hany
    intro hak
    exact hany ⟨a, hal, by simp [hak]⟩

/-- `store_memory` leaves exactly one row for the stored triple. -/
theorem store_memory_filter (tbl : List MemRecord) (u t k v : String)
    (n : Nat) (huniq : UniqueTriples tbl) :
    (store_memory tbl u t k v n).filter
        (fun r => decide (tripleOf r = (u, t, k))) =
      [MemRecord.mk u t k v n] := by
  have h := upsertBy_filter_key tripleOf (u, t, k)
    (fun r => { r with memory_value := v, updated_at := n })
    (MemRecord.mk u t k v n) tbl (fun _ => rfl) rfl huniq
  rw [store_memory, h]
  cases hf : tbl.find? (fun r => decide (tripleOf r = (u, t, k))) with
  | none => rfl
  | some r =>
    have hp := List.find?_some hf
    have : tripleOf r = (u, t, k) := by simpa using hp
    have h1 : r.user_id = u := congrArg Prod.fst this
    have h2 : r.memory_type = t := congrArg (fun p => p.snd.fst) this
    have h3 : r.memory_key = k := congrArg (fun p => p.snd.snd) this
    simp [h1, h2, h3]

/-- `store_memory` preserves the unique-triple invariant. -/
theorem store_memory_unique (tbl : List MemRecord) (u t k v : String)
    (n : Nat) (huniq : UniqueTriples tbl) :
    UniqueTriples (store_memory tbl u t k v n) :=
  upsertBy_pairwise_key tripleOf (u, t, k)
    (fun r => { r with memory_value := v, updated_at := n })
    (MemRecord.mk u t k v n) tbl (fun _ => rfl) rfl huniq

/-- A sequence of `store_memory` operations preserves the invariant. -/
theorem applyStores_unique (ops : List StoreOp) :
    ∀ tbl : List MemRecord, UniqueTriples tbl →
      UniqueTriples (applyStores tbl ops) := by
  induction ops with
  | nil => intro tbl h; exact h
  | cons op ops ih =>
    intro tbl h
    exact ih _ (store_memory_unique tbl op.user_id op.memory_type
      op.memory_key op.memory_value op.now h)

/-- The durable summary upsert leaves exactly one row for the thread,
holding the stored text. -/
theorem store_summary_filter (tbl : List SumRow) (u th s c : String)
    (huniq : UniqueThreads tbl) :
    ((store_conversation_summary_db tbl u th s c).filter
        (fun r => decide (r.thread_id = th))).map SumRow.summary = [s] := by
  have h := upsertBy_filter_key SumRow.thread_id th
    (fun r => { r with summary := s, customer_ids := c })
    (SumRow.mk u th s c) tbl (fun _ => rfl) rfl huniq
  rw [store_conversation_summary_db, h]
  cases tbl.find? (fun r => decide (r.thread_id = th)) <;> rfl

/-- The durable summary upsert preserves the unique-thread invariant. -/
theorem store_summary_unique (tbl : List SumRow) (u th s c : String)
    (huniq : UniqueThreads tbl) :
    UniqueThreads (store_conversation_summary_db tbl u th s c) :=
  upsertBy_pairwise_key SumRow.thread_id th
    (fun r => { r with summary := s, customer_ids := c })
    (SumRow.mk u th s c) tbl (fun _ => rfl) rfl huniq

/-! ## Cache lemmas -/

/-- Looking up a key right after assigning it. -/
theorem lookupA_setA {α : Type} (d : List (String × α)) (k : String) (v : α) :
    lookupA (setA d k v) k = some v := by
  induction d with
  | nil => simp [setA, lookupA]
  | cons p rest ih =>
    by_cases h : p.fst = k
    · simp [setA, h, lookupA]
    · simp [setA, h, lookupA, ih]

/-- A popped key is gone. -/
theorem lookupA_removeA {α : Type} (d : List (String × α)) (k : String) :
    lookupA (removeA d k) k = none := by
  induction d with
  | nil => rfl
  | cons p rest ih =>
    by_cases h : p.fst = k
    · simpa [removeA, h] using ih
    · simpa [removeA, h, lookupA] using ih

/-- The update-or-append loop stores the new item. -/
theorem updateMemList_mem (lst : List CacheMem) (t k v : String) :
    CacheMem.mk t k v ∈ updateMemList lst t k v := by
  induction lst with
  | nil => simp [updateMemList]
  | cons m rest ih =>
    by_cases h : m.memory_type = t ∧ m.memory_key = k
    · simp [updateMemList, h]
    · simp only [updateMemList, if_neg h, List.mem_cons]
      exact Or.inr ih

/-- The update-or-append loop grows the list by at most one entry. -/
theorem updateMemList_length (lst : List CacheMem) (t k v : String) :
    (updateMemList lst t k v).length ≤ lst.length + 1 := by
  induction lst with
  | nil => simp [updateMemList]
  | cons m rest ih =>
    by_cases h : m.memory_type = t ∧ m.memory_key = k
    · simp [updateMemList, h]
    · simp only [updateMemList, if_neg h, List.length_cons]
      omega

/-! ## Extractor lemmas -/

/-- Every write of the name-pattern loop has type `customer_names`. -/
theorem namesWrites_type (text u : String) (cids : List String) :
    ∀ w ∈ namesWrites text u cids, w.memory_type = "customer_names" := by
  intro w hw
  simp only [namesWrites, List.mem_flatMap] at hw
  obtain ⟨m, _, hw⟩ := hw
  split at hw
  · simp only [List.mem_flatMap, List.mem_map] at hw
    obtain ⟨nm, _, cid, _, rfl⟩ := hw
    rfl
  · simp at hw

/-- Every write of the financial-pattern loop has a type of the form
`customer_<data_type>` for one of the five data types. -/
theorem financialWrites_type (text u : String) (cids : List String) :
    ∀ w ∈ financialWrites text u cids,
      ∃ dt, dt ∈ ["income", "credit_score", "balance", "total_assets", "age"] ∧
        w.memory_type = "customer_" ++ dt := by
  intro w hw
  simp only [financialWrites, List.mem_flatMap] at hw
  obtain ⟨spec, hspec, hw⟩ := hw
  split at hw
  · simp only [List.mem_flatMap, List.mem_map] at hw
    obtain ⟨v, _, cid, _, rfl⟩ := hw
    refine ⟨spec.snd, ?_, rfl⟩
    simp only [financialSpecs, List.mem_cons, List.not_mem_nil, or_false,
      List.mem_singleton] at hspec
    rcases hspec with h | h | h | h | h <;> rw [h] <;> decide
  · simp at hw

/-- A name-pattern loop with no customer ids issues no writes. -/
theorem namesWrites_nil_cids (text u : String) :
    namesWrites text u [] = [] := by
  simp [namesWrites]

/-- A financial-pattern loop with no customer ids issues no writes. -/
theorem financialWrites_nil_cids (text u : String) :
    financialWrites text u [] = [] := by
  simp [financialWrites]

/-! ## Claims -/

/-- C1: after any sequence of `store_memory` upserts starting from the
empty table, the long-term memory table holds at most one row per
`(user_id, memory_type, memory_key)` triple; storing a second value for
an existing triple leaves exactly one row holding the new value, and —
with the timestamps of the store non-decreasing — the `updated_at` of the row
never decreases. -/
theorem claim1_upsert_unique :
    (∀ ops : List StoreOp, UniqueTriples (applyStores [] ops)) ∧
    (∀ (tbl : List MemRecord) (u t k v1 v2 : String) (n1 n2 : Nat),
      UniqueTriples tbl → n1 ≤ n2 →
      (store_memory tbl u t k v1 n1).filter
          (fun r => decide (tripleOf r = (u, t, k))) =
        [MemRecord.mk u t k v1 n1] ∧
      (store_memory (store_memory tbl u t k v1 n1) u t k v2 n2).filter
          (fun r => decide (tripleOf r = (u, t, k))) =
        [MemRecord.mk u t k v2 n2] ∧
      UniqueTriples (store_memory (store_memory tbl u t k v1 n1) u t k v2 n2) ∧
      (∀ r1 ∈ (store_memory tbl u t k v1 n1).filter
          (fun r => decide (tripleOf r = (u, t, k))),
        ∀ r2 ∈ (store_memory (store_memory tbl u t k v1 n1) u t k v2 n2).filter
          (fun r => decide (tripleOf r = (u, t, k))),
        r1.updated_at ≤ r2.updated_at)) := by
  constructor
  · intro ops
    exact applyStores_unique ops [] List.Pairwise.nil
  · intro tbl u t k v1 v2 n1 n2 hun hle
    have h1 := store_memory_filter tbl u t k v1 n1 hun
    have hu1 := store_memory_unique tbl u t k v1 n1 hun
    have h2 := store_memory_filter (store_memory tbl u t k v1 n1) u t k v2 n2 hu1
    refine ⟨h1, h2, store_memory_unique _ u t k v2 n2 hu1, ?_⟩
    intro r1 hr1 r2 hr2
    rw [h1] at hr1
    rw [h2] at hr2
    simp only [List.mem_singleton] at hr1 hr2
    subst hr1
    subst hr2
    exact hle

/-- Witness for C1 at a concrete double store. -/
theorem claim1_upsert_unique_witness :
    (store_memory [] "u1" "risk_assessments" "customer_1" "HIGH_RISK" 1).filter
        (fun r => decide (tripleOf r = ("u1", "risk_assessments", "customer_1"))) =
      [MemRecord.mk "u1" "risk_assessments" "customer_1" "HIGH_RISK" 1] ∧
    (store_memory
        (store_memory [] "u1" "risk_assessments" "customer_1" "HIGH_RISK" 1)
        "u1" "risk_assessments" "customer_1" "LOW_RISK" 2).filter
        (fun r => decide (tripleOf r = ("u1", "risk_assessments", "customer_1"))) =
      [MemRecord.mk "u1" "risk_assessments" "customer_1" "LOW_RISK" 2] :=
  ⟨(claim1_upsert_unique.2 [] "u1" "risk_assessments" "customer_1" "HIGH_RISK"
      "LOW_RISK" 1 2 List.Pairwise.nil (by decide)).1,
   (claim1_upsert_unique.2 [] "u1" "risk_assessments" "customer_1" "HIGH_RISK"
      "LOW_RISK" 1 2 List.Pairwise.nil (by decide)).2.1⟩

/-- C2: on the literal text `Customer ID: 93486, high credit risk,
email jane@bank.com` the extractor finds customer id `93486` and issues
exactly the three stores: the analyzed-customer marker, `HIGH_RISK`
under `risk_assessments/customer_93486`, and `jane@bank.com` under
`customer_emails/customer_93486`. -/
theorem claim2_extraction_deterministic :
    extract_customer_ids
        "Customer ID: 93486, high credit risk, email jane@bank.com" =
      ["93486"] ∧
    extract_memories_from_response
        "Customer ID: 93486, high credit risk, email jane@bank.com"
        "analyst" "2025-11-30" =
      [MemWrite.mk "analyst" "analyzed_customers" "customer_93486"
        "Analyzed on 2025-11-30",
       MemWrite.mk "analyst" "risk_assessments" "customer_93486" "HIGH_RISK",
       MemWrite.mk "analyst" "customer_emails" "customer_93486"
        "jane@bank.com"] := by
  decide

/-- C3 counterexample: on `The customer is high risk.` the extractor
detects the `HIGH_RISK` label (the risk condition of the code holds)
but finds no customer id, and issues no store at all — the risk label
is not stored under any generic key, contradicting the claim that every
extracted value not tied to a customer id is preserved. -/
theorem claim3_counterexample :
    riskLabel (lowerStr "The customer is high risk.") = some "HIGH_RISK" ∧
    extract_memories_from_response "The customer is high risk." "u1"
      "2025-01-01" = [] := by
  decide

/-- C3 amended: when the text yields no customer id, the only values
stored under a generic key derived from the value itself are the
extracted emails (type `discovered_emails`, keyed by the email);
risk labels, names and financial attributes found in such a text are
discarded — the whole write list is exactly the discovered-email
writes. -/
theorem claim3_amended (text u d : String)
    (h : extract_customer_ids text = []) :
    extract_memories_from_response text u d =
      (extract_emails text).map fun em =>
        MemWrite.mk u "discovered_emails" em ("Found on " ++ d) := by
  unfold extract_memories_from_response
  rw [h]
  rcases hr : riskLabel (lowerStr text) with _ | lab
  · rcases he : extract_emails text with _ | ⟨em, ems⟩
    · simp [namesWrites_nil_cids, financialWrites_nil_cids]
    · simp [namesWrites_nil_cids, financialWrites_nil_cids]
  · rcases he : extract_emails text with _ | ⟨em, ems⟩
    · simp [namesWrites_nil_cids, financialWrites_nil_cids]
    · simp [namesWrites_nil_cids, financialWrites_nil_cids]

/-- Witness for C3 amended: a text with an email and no customer id. -/
theorem claim3_amended_witness :
    extract_memories_from_response "contact bob@x.io" "u1" "2025-01-01" =
      [MemWrite.mk "u1" "discovered_emails" "bob@x.io" "Found on 2025-01-01"] := by
  rw [claim3_amended "contact bob@x.io" "u1" "2025-01-01" (by decide)]
  decide

/-- C4: clearing the memories of a user deletes exactly the long-term
memory rows and conversation summaries of that user (rows of other users
survive) and leaves the conversation-history table — and the cached
conversation turns — untouched; the cache entries of the user are popped. -/
theorem claim4_clear_preserves_history (db : DbState) (cache : CacheState)
    (u : String) :
    (clear_memories_api db cache u).fst.history = db.history ∧
    (∀ r ∈ (clear_memories_api db cache u).fst.memories, r.user_id ≠ u) ∧
    (∀ s ∈ (clear_memories_api db cache u).fst.summaries, s.user_id ≠ u) ∧
    (∀ r ∈ db.memories, r.user_id ≠ u →
      r ∈ (clear_memories_api db cache u).fst.memories) ∧
    (∀ s ∈ db.summaries, s.user_id ≠ u →
      s ∈ (clear_memories_api db cache u).fst.summaries) ∧
    (clear_memories_api db cache u).snd.conversations = cache.conversations ∧
    lookupA (clear_memories_api db cache u).snd.user_memories u = none ∧
    lookupA (clear_memories_api db cache u).snd.summaries u = none := by
  refine ⟨rfl, ?_, ?_, ?_, ?_, rfl, lookupA_removeA _ _, lookupA_removeA _ _⟩
  · intro r hr
    simp only [clear_memories_api, List.mem_filter, decide_eq_true_eq] at hr
    exact hr.2
  · intro s hs
    simp only [clear_memories_api, List.mem_filter, decide_eq_true_eq] at hs
    exact hs.2
  · intro r hr hne
    simp only [clear_memories_api, List.mem_filter, decide_eq_true_eq]
    exact ⟨hr, hne⟩
  · intro s hs hne
    simp only [clear_memories_api, List.mem_filter, decide_eq_true_eq]
    exact ⟨hs, hne⟩

/-- Witness for C4 on a two-user database. -/
theorem claim4_clear_witness :
    (clear_memories_api
        (DbState.mk [HistRow.mk "t1" "u1" "user" "hello"]
          [MemRecord.mk "u1" "risk_assessments" "customer_1" "HIGH_RISK" 1,
           MemRecord.mk "u2" "analyzed_customers" "customer_2" "x" 2]
          [SumRow.mk "u1" "t1" "s1" "", SumRow.mk "u2" "t2" "s2" ""])
        (CacheState.mk [("t1", [("user", "hello")])] [("u1", [])] [("u1", [])])
        "u1").fst.history = [HistRow.mk "t1" "u1" "user" "hello"] ∧
    MemRecord.mk "u2" "analyzed_customers" "customer_2" "x" 2 ∈
      (clear_memories_api
        (DbState.mk [HistRow.mk "t1" "u1" "user" "hello"]
          [MemRecord.mk "u1" "risk_assessments" "customer_1" "HIGH_RISK" 1,
           MemRecord.mk "u2" "analyzed_customers" "customer_2" "x" 2]
          [SumRow.mk "u1" "t1" "s1" "", SumRow.mk "u2" "t2" "s2" ""])
        (CacheState.mk [("t1", [("user", "hello")])] [("u1", [])] [("u1", [])])
        "u1").fst.memories ∧
    lookupA (clear_memories_api
        (DbState.mk [HistRow.mk "t1" "u1" "user" "hello"]
          [MemRecord.mk "u1" "risk_assessments" "customer_1" "HIGH_RISK" 1,
           MemRecord.mk "u2" "analyzed_customers" "customer_2" "x" 2]
          [SumRow.mk "u1" "t1" "s1" "", SumRow.mk "u2" "t2" "s2" ""])
        (CacheState.mk [("t1", [("user", "hello")])] [("u1", [])] [("u1", [])])
        "u1").snd.user_memories "u1" = none :=
  ⟨(claim4_clear_preserves_history _ _ _).1,
   (claim4_clear_preserves_history _ _ _).2.2.2.1 _ (by decide) (by decide),
   (claim4_clear_preserves_history _ _ _).2.2.2.2.2.2.1⟩

/-- C5 counterexample: two `store_conversation_summary` calls for the
same thread with different texts leave exactly one durable row (the
second text), but the volatile fallback cache — which appends
unconditionally — holds two entries for the thread, contradicting the
claim that the cache too keeps exactly one summary per thread. -/
theorem claim5_counterexample :
    (store_conversation_summary
        (store_conversation_summary [] [] "u1" "t1" "first summary" []).fst
        (store_conversation_summary [] [] "u1" "t1" "first summary" []).snd
        "u1" "t1" "second summary" []).fst =
      [SumRow.mk "u1" "t1" "second summary" ""] ∧
    ((lookupA (store_conversation_summary
        (store_conversation_summary [] [] "u1" "t1" "first summary" []).fst
        (store_conversation_summary [] [] "u1" "t1" "first summary" []).snd
        "u1" "t1" "second summary" []).snd "u1").getD []).filter
        (fun cs => decide (cs.thread_id = "t1")) =
      [CacheSum.mk "t1" "first summary" [],
       CacheSum.mk "t1" "second summary" []] := by
  decide

/-- C5 amended: in the durable store (whose unique `thread_id`
constraint the upsert targets) two stores for the same thread leave
exactly one row holding the second text; the volatile fallback cache
instead appends one entry per call, so after the two calls the
cached list ends with both summaries. -/
theorem claim5_amended (db : List SumRow)
    (cache : List (String × List CacheSum)) (u th s1 s2 : String)
    (c1 c2 : List String) (huniq : UniqueThreads db) :
    (((store_conversation_summary
        (store_conversation_summary db cache u th s1 c1).fst
        (store_conversation_summary db cache u th s1 c1).snd
        u th s2 c2).fst).filter
        (fun r => decide (r.thread_id = th))).map SumRow.summary = [s2] ∧
    (lookupA (store_conversation_summary
        (store_conversation_summary db cache u th s1 c1).fst
        (store_conversation_summary db cache u th s1 c1).snd
        u th s2 c2).snd u).getD [] =
      ((lookupA cache u).getD []) ++
        [CacheSum.mk th s1 c1, CacheSum.mk th s2 c2] := by
  constructor
  · exact store_summary_filter _ u th s2 (String.intercalate "," c2)
      (store_summary_unique db u th s1 (String.intercalate "," c1) huniq)
  · show (lookupA (store_conversation_summary_cache
        (store_conversation_summary_cache cache u th s1 c1) u th s2 c2) u).getD
        [] = _
    unfold store_conversation_summary_cache
    rw [lookupA_setA, lookupA_setA]
    simp

/-- Witness for C5 amended starting from empty stores. -/
theorem claim5_amended_witness :
    (((store_conversation_summary
        (store_conversation_summary [] [] "u1" "t1" "sa" []).fst
        (store_conversation_summary [] [] "u1" "t1" "sa" []).snd
        "u1" "t1" "sb" []).fst).filter
        (fun r => decide (r.thread_id = "t1"))).map SumRow.summary = ["sb"] ∧
    (lookupA (store_conversation_summary
        (store_conversation_summary [] [] "u1" "t1" "sa" []).fst
        (store_conversation_summary [] [] "u1" "t1" "sa" []).snd
        "u1" "t1" "sb" []).snd "u1").getD [] =
      ((lookupA ([] : List (String × List CacheSum)) "u1").getD []) ++
        [CacheSum.mk "t1" "sa" [], CacheSum.mk "t1" "sb" []] :=
  claim5_amended [] [] "u1" "t1" "sa" "sb" [] [] List.Pairwise.nil

/-- C6: every `risk_assessments` write of one extraction call carries
the single label selected by the `if/elif` chain — high-risk phrases
first, then low-risk, then medium/moderate — so at most one distinct
label is recorded per call and a higher-priority phrase suppresses all
lower-priority ones. -/
theorem claim6_risk_priority (text u d : String) :
    (∀ w ∈ extract_memories_from_response text u d,
      w.memory_type = "risk_assessments" →
      some w.memory_value = riskLabel (lowerStr text)) ∧
    (hiRiskB (lowerStr text).data = true →
      riskLabel (lowerStr text) = some "HIGH_RISK") ∧
    (hiRiskB (lowerStr text).data = false →
      loRiskB (lowerStr text).data = true →
      riskLabel (lowerStr text) = some "LOW_RISK") ∧
    (hiRiskB (lowerStr text).data = false →
      loRiskB (lowerStr text).data = false →
      medRiskB (lowerStr text).data = true →
      riskLabel (lowerStr text) = some "MEDIUM_RISK") ∧
    (hiRiskB (lowerStr text).data = false →
      loRiskB (lowerStr text).data = false →
      medRiskB (lowerStr text).data = false →
      riskLabel (lowerStr text) = none) := by
  refine ⟨?_, ?_, ?_, ?_, ?_⟩
  · intro w hw htype
    unfold extract_memories_from_response at hw
    rcases List.mem_append.mp hw with hw | hw5
    rotate_left
    · obtain ⟨dt, hdt, heq⟩ := financialWrites_type text u _ w hw5
      rw [heq] at htype
      simp only [List.mem_cons, List.not_mem_nil, or_false,
        List.mem_singleton] at hdt
      rcases hdt with rfl | rfl | rfl | rfl | rfl <;>
        exact absurd htype (by decide)
    rcases List.mem_append.mp hw with hw | hw4
    rotate_left
    · rw [namesWrites_type text u _ w hw4] at htype
      simp at htype
    rcases List.mem_append.mp hw with hw | hw3
    rotate_left
    · split at hw3
      · simp only [List.mem_flatMap, List.mem_map] at hw3
        obtain ⟨em, _, cid, _, rfl⟩ := hw3
        simp at htype
      · split at hw3
        · simp only [List.mem_map] at hw3
          obtain ⟨em, _, rfl⟩ := hw3
          simp at htype
        · simp at hw3
    rcases List.mem_append.mp hw with hw1 | hw2
    · simp only [List.mem_map] at hw1
      obtain ⟨cid, _, rfl⟩ := hw1
      simp at htype
    · rcases hr : riskLabel (lowerStr text) with _ | lab
      · rw [hr] at hw2
        simp at hw2
      · rw [hr] at hw2
        simp only [List.mem_map] at hw2
        obtain ⟨cid, _, rfl⟩ := hw2
        rfl
  · intro h1
    simp [riskLabel, h1]
  · intro h1 h2
    simp [riskLabel, h1, h2]
  · intro h1 h2 h3
    simp [riskLabel, h1, h2, h3]
  · intro h1 h2 h3
    simp [riskLabel, h1, h2, h3]

/-- Witness for C6: a text containing both a high-risk and a low-risk
phrase records `HIGH_RISK` only. -/
theorem claim6_risk_priority_witness :
    riskLabel (lowerStr "customer 12345: high risk, though some low risk signs") =
      some "HIGH_RISK" :=
  (claim6_risk_priority "customer 12345: high risk, though some low risk signs"
    "u1" "2025-01-01").2.1 (by decide)

/-- C7: with the durable store unreachable, a `store_user_memory`
followed by `get_user_memories` in the same process round-trips through
the volatile cache: the returned list contains the stored record
(provided the cached list of the user has not already reached the
20-entry result cap); both operations are total functions of the cache
state, so neither can raise. -/
theorem claim7_fallback_roundtrip (d : List (String × List CacheMem))
    (u t k v : String) (h : ((lookupA d u).getD []).length < 20) :
    CacheMem.mk t k v ∈
      get_user_memories_cache (store_user_memory_cache d u t k v) u 20 := by
  unfold get_user_memories_cache store_user_memory_cache
  rw [lookupA_setA]
  have hlen : (updateMemList ((lookupA d u).getD []) t k v).length ≤ 20 := by
    have := updateMemList_length ((lookupA d u).getD []) t k v
    omega
  show CacheMem.mk t k v ∈
    List.take 20 (updateMemList ((lookupA d u).getD []) t k v)
  rw [List.take_of_length_le hlen]
  exact updateMemList_mem _ _ _ _

/-- Witness for C7 on a fresh cache. -/
theorem claim7_fallback_roundtrip_witness :
    CacheMem.mk "risk_assessments" "customer_1" "HIGH_RISK" ∈
      get_user_memories_cache
        (store_user_memory_cache [] "u1" "risk_assessments" "customer_1"
          "HIGH_RISK") "u1" 20 :=
  claim7_fallback_roundtrip [] "u1" "risk_assessments" "customer_1" "HIGH_RISK"
    (by decide)

/-- C8: the reply `predict` returns is a function of the model outputs
and the resolved ids alone: whatever `_extract_and_store_memories`
does — succeed with any state change, or raise — the try/except around
step 6 keeps the user-visible response (output items, `thread_id`,
`user_id`, `memory_enabled`) identical to the one produced had the
memory write succeeded. -/
theorem claim8_memory_failure_invisible (outputs : List String)
    (uid tid : String) (st : List MemRecord × List SumRow)
    (f g : List MemRecord × List SumRow →
      Except String (List MemRecord × List SumRow)) :
    (predict_finish outputs uid tid st f).fst =
      (predict_finish outputs uid tid st g).fst := rfl

/-- C9: the extractor issues no write on the empty reply, and both
context composers render a user with no stored memory records as the
empty string. -/
theorem claim9_empty_input_safety (u d : String) (convos : List ConvoEntry) :
    extract_memories_from_response "" u d = [] ∧
    build_memory_context (get_user_memories_cache [] u 50) = "" ∧
    format_memory_context [] convos = "" := by
  refine ⟨?_, ?_, ?_⟩
  · unfold extract_memories_from_response
    rw [(by decide : extract_customer_ids "" = []),
      (by decide : extract_emails "" = []),
      (by decide : riskLabel (lowerStr "") = none)]
    simp [namesWrites_nil_cids, financialWrites_nil_cids]
  · simp [get_user_memories_cache, lookupA, build_memory_context]
  · simp [format_memory_context]

/-- C10: executing a tool name absent from the tool registry of the agent never
raises; it returns the error string `Unknown tool: <name>`. -/
theorem claim10_unknown_tool (tools : List (String × (String → String)))
    (tool_name args : String) (h : lookupA tools tool_name = none) :
    execute_tool tools tool_name args = "Unknown tool: " ++ tool_name := by
  simp [execute_tool, h]

/-- Witness for C10 on the empty registry. -/
theorem claim10_unknown_tool_witness :
    execute_tool [] "nonexistent_tool" "" = "Unknown tool: " ++ "nonexistent_tool" :=
  claim10_unknown_tool [] "nonexistent_tool" "" rfl

